import Mathlib

/-!
Shallow embedding of the PawPal scheduling core (src/pawpal_system.py).

Modelling conventions:
* Times are whole minutes. A time-of-day is an `Int` (minutes after midnight),
  a datetime is an `Int` (minutes after a fixed epoch), and the date being
  scheduled is passed as `dateMid`, the datetime of its midnight; Python's
  `datetime.combine(date, t)` becomes `dateMid + t` and extracting the
  time-of-day from a datetime of that day becomes subtracting `dateMid`.
* Python floats (task scores, utilization rate) are modelled as exact
  rationals `ℚ`.
* The wall clock `datetime.now()` is passed explicitly as the parameter
  `now`, modelling a frozen clock read.
* Python's stable list sort and `bisect.insort` are modelled by a stable
  insertion sort (`stableSort` / `insertStable`): stable sorts for a total
  preorder agree on all inputs, so this is behaviourally faithful.
* Fallible constructors raise ValueError in Python; they return
  `Except String` here.
* Decision-log and warning strings are kept at the positions the source
  emits them, with the numeric pretty-printing (float formats, strftime)
  elided from the message text; the emptiness/ordering of those lists is
  what the properties below depend on, never the message wording.
-/

namespace PawPal

inductive Priority where
  | low
  | medium
  | high
  | critical
deriving DecidableEq, BEq, Repr

inductive RecurrencePattern where
  | daily
  | weekly
  | biweekly
  | monthly
  | as_needed
deriving DecidableEq, BEq, Repr

/-- `TimeWindow`: a window within a day. The source validates `start < end`
at construction (`__post_init__`), so the raw structure carries no proof and
`mkTimeWindow` below models the validating constructor. The field `end` is a
Lean keyword, hence `end_`. -/
structure TimeWindow where
  start : Int
  end_ : Int
deriving DecidableEq, Repr

/-- `TimeWindow.__post_init__`: raises ValueError iff `start >= end`. -/
def mkTimeWindow (s e : Int) : Except String TimeWindow :=
  if s ≥ e then Except.error "Start time must be before end time"
  else Except.ok ⟨s, e⟩

/-- `_calculate_duration`, cached as `duration_minutes()`: whole minutes
between start and end. -/
def TimeWindow.duration_minutes (w : TimeWindow) : Int :=
  w.end_ - w.start

/-- `contains`: closed interval, boundary-inclusive on both ends. -/
def TimeWindow.contains (w : TimeWindow) (t : Int) : Bool :=
  decide (w.start ≤ t) && decide (t ≤ w.end_)

/-- `overlaps`: true unless one window ends before (or exactly when) the
other starts. -/
def TimeWindow.overlaps (w o : TimeWindow) : Bool :=
  !(decide (w.end_ ≤ o.start) || decide (o.end_ ≤ w.start))

/-- `fits_task`: the window is at least as long as the task. -/
def TimeWindow.fits_task (w : TimeWindow) (d : Int) : Bool :=
  decide (w.duration_minutes ≥ d)

/-- `Task` dataclass. `last_done` is an optional datetime (minutes). -/
structure Task where
  id : String
  title : String
  duration_minutes : Int
  priority : Priority
  preferred_windows : List TimeWindow
  required : Bool
  last_done : Option Int
  recurrence : RecurrencePattern
  pet_id : Option String
  dependencies : List String
deriving DecidableEq, Repr

/-- `Task.__post_init__` validation: id and title nonempty, duration in
(0, 1440]. -/
def mkTaskValid (t : Task) : Bool :=
  decide (t.id ≠ "") && decide (t.title ≠ "") &&
    decide (0 < t.duration_minutes) && decide (t.duration_minutes ≤ 1440)

/-- `Task.is_overdue`, with the clock read `datetime.now()` passed as `now`.
Never done: overdue iff required. Done: overdue iff the elapsed time strictly
exceeds the recurrence threshold; the `if/elif` chain falls through to
`False` for AS_NEEDED. Thresholds in minutes: 1 day = 1440, 1 week = 10080,
2 weeks = 20160, 30 days = 43200. -/
def Task.is_overdue (t : Task) (now : Int) : Bool :=
  match t.last_done with
  | none => t.required
  | some ld =>
    let time_since := now - ld
    match t.recurrence with
    | RecurrencePattern.daily => decide (time_since > 1440)
    | RecurrencePattern.weekly => decide (time_since > 10080)
    | RecurrencePattern.biweekly => decide (time_since > 20160)
    | RecurrencePattern.monthly => decide (time_since > 43200)
    | RecurrencePattern.as_needed => false

/-- `ScheduledTask`: a task bound to concrete start/end datetimes. -/
structure ScheduledTask where
  task : Task
  start_time : Int
  end_time : Int
  reason : String
deriving DecidableEq, Repr

/-- `ScheduledTask.overlaps_with`. -/
def ScheduledTask.overlaps_with (s o : ScheduledTask) : Bool :=
  !(decide (s.end_time ≤ o.start_time) || decide (o.end_time ≤ s.start_time))

/-- `Schedule` dataclass. `date` is the midnight datetime of the day. -/
structure Schedule where
  scheduled_tasks : List ScheduledTask
  unscheduled_tasks : List Task
  total_minutes_scheduled : Int
  total_minutes_available : Int
  explanation : String
  date : Option Int
deriving DecidableEq, Repr

/-- The dataclass defaults: `Schedule()`. -/
def Schedule.empty : Schedule :=
  ⟨[], [], 0, 0, "", none⟩

/-- Stable insertion used to model both Python's stable `list.sort`
(via `stableSort`) and `bisect.insort`: `x` is inserted before the first
element `y` for which `keep y x` is false, so elements the comparator ties
stay in their existing relative order exactly as in the source. -/
def insertStable {α : Type} (keep : α → α → Bool) (x : α) : List α → List α
  | [] => [x]
  | y :: ys => if keep y x then y :: insertStable keep x ys else x :: y :: ys

/-- Stable insertion sort; behaviourally equal to Python's stable sort for
the comparators used by the source. -/
def stableSort {α : Type} (keep : α → α → Bool) : List α → List α
  | [] => []
  | x :: xs => insertStable keep x (stableSort keep xs)

/-- `bisect.insort(..., key=lambda st: st.start_time)` (insort_right):
the new entry goes after every entry whose start time is ≤ its own. -/
def insortByStart (st : ScheduledTask) (l : List ScheduledTask) : List ScheduledTask :=
  insertStable (fun y x => decide (y.start_time ≤ x.start_time)) st l

/-- `Schedule.add_scheduled_task`: reject (returning the schedule unchanged)
if the candidate overlaps any existing entry, else insert in sorted position
and accumulate the scheduled minutes. -/
def Schedule.add_scheduled_task (sch : Schedule) (st : ScheduledTask) : Bool × Schedule :=
  if sch.scheduled_tasks.any (fun existing => st.overlaps_with existing) then
    (false, sch)
  else
    (true, { sch with
      scheduled_tasks := insortByStart st sch.scheduled_tasks,
      total_minutes_scheduled := sch.total_minutes_scheduled + st.task.duration_minutes })

/-- `Schedule.sort_by_time`: stable sort ascending by start time. -/
def Schedule.sort_by_time (sch : Schedule) : Schedule :=
  { sch with scheduled_tasks :=
      stableSort (fun y x => decide (y.start_time < x.start_time)) sch.scheduled_tasks }

/-- `Schedule.get_utilization_rate`: scheduled/available * 100, and 0 when
nothing is available. -/
def Schedule.get_utilization_rate (sch : Schedule) : ℚ :=
  if sch.total_minutes_available = 0 then 0
  else ((sch.total_minutes_scheduled : ℚ) / (sch.total_minutes_available : ℚ)) * 100

/-- `Pet` dataclass. -/
structure Pet where
  id : String
  name : String
  species : Option String
  owner_id : Option String
  tasks : List Task
deriving DecidableEq, Repr

/-- `Owner` dataclass. -/
structure Owner where
  id : String
  name : String
  timezone : Option String
  availability : List TimeWindow
  pets : List Pet
deriving DecidableEq, Repr

/-- `Owner.get_availability`: a copy of the static availability list. -/
def Owner.get_availability (o : Owner) : List TimeWindow :=
  o.availability

/-! ### Decimal formatting of counters

`Pet.mark_task_complete` builds ids with an f-string, i.e. decimal notation
of the counter.  Python's decimal formatting of a positive int is modelled
by `natRepr`, written with structural (fuel) recursion so that it reduces in
the kernel: `natDigitsAux fuel n` is the little-endian digit list of `n`
provided `n ≤ fuel`. -/

def natDigitsAux : Nat → Nat → List Nat
  | 0, _ => []
  | _ + 1, 0 => []
  | fuel + 1, n + 1 => (n + 1) % 10 :: natDigitsAux fuel ((n + 1) / 10)

def digitChar : Nat → Char
  | 0 => '0'
  | 1 => '1'
  | 2 => '2'
  | 3 => '3'
  | 4 => '4'
  | 5 => '5'
  | 6 => '6'
  | 7 => '7'
  | 8 => '8'
  | 9 => '9'
  | _ => '*'

def natRepr (n : Nat) : String :=
  if n = 0 then "0" else ⟨((natDigitsAux n n).reverse.map digitChar)⟩

/-- Value of a little-endian digit list; used to show `natRepr` is
injective on positive counters. -/
def of_digits : List Nat → Nat
  | [] => 0
  | d :: ds => d + 10 * of_digits ds

/-! ### Pet collection operations -/

/-- `t.id == task_id` search: the source scans `self.tasks` and takes the
first match. -/
def Pet.find_task (pet : Pet) (task_id : String) : Option Task :=
  pet.tasks.find? (fun t => t.id == task_id)

/-- `task.last_done = datetime.now()` applied to the first task whose id
matches, leaving every other task untouched. -/
def setFirstLastDone (now : Int) (task_id : String) : List Task → List Task
  | [] => []
  | t :: ts =>
    if t.id == task_id then { t with last_done := some now } :: ts
    else t :: setFirstLastDone now task_id ts

/-- `task_id.split("_next_")[0]`: the prefix of the id before the leftmost
occurrence of `"_next_"` (the whole id when the separator is absent). -/
def baseIdChars : List Char → List Char
  | [] => []
  | c :: cs =>
    if List.isPrefixOf "_next_".toList (c :: cs) then []
    else c :: baseIdChars cs

def base_id (task_id : String) : String :=
  ⟨baseIdChars task_id.data⟩

/-- The candidate id `f"{base_id}_next_{counter}"`. -/
def mk_next_id (base : String) (c : Nat) : String :=
  base ++ "_next_" ++ natRepr c

/-- The `while any(t.id == new_id ...)` search for a fresh counter, given
enough fuel.  `mark_task_complete` runs it with fuel `|ids| + 1`, which the
pigeonhole argument below shows always suffices. -/
def freshCounter (ids : List String) (base : String) : Nat → Nat → Nat
  | 0, c => c
  | fuel + 1, c =>
    if ids.contains (mk_next_id base c) then freshCounter ids base fuel (c + 1)
    else c

/-- `Pet.mark_task_complete`: raise if the id is absent; otherwise stamp
`last_done = now` on the found task, and for a recurring pattern append a
fresh successor task (static fields copied, `last_done = None`, fresh
`..._next_k` id) and return it; for AS_NEEDED return nothing. -/
def Pet.mark_task_complete (pet : Pet) (task_id : String) (now : Int) :
    Except String (Pet × Option Task) :=
  match pet.find_task task_id with
  | none => Except.error ("Task with id " ++ task_id ++ " not found")
  | some task =>
    let tasks1 := setFirstLastDone now task_id pet.tasks
    if [RecurrencePattern.daily, RecurrencePattern.weekly,
        RecurrencePattern.biweekly, RecurrencePattern.monthly].contains task.recurrence then
      let ids := tasks1.map (fun t => t.id)
      let counter := freshCounter ids (base_id task_id) (ids.length + 1) 1
      let new_task : Task :=
        { id := mk_next_id (base_id task_id) counter
          title := task.title
          duration_minutes := task.duration_minutes
          priority := task.priority
          preferred_windows := task.preferred_windows
          required := task.required
          last_done := none
          recurrence := task.recurrence
          pet_id := some pet.id
          dependencies := task.dependencies }
      Except.ok ({ pet with tasks := tasks1 ++ [new_task] }, some new_task)
    else
      Except.ok ({ pet with tasks := tasks1 }, none)

/-! ### Scheduler -/

/-- Mutable per-instance state of `Scheduler`. -/
structure Scheduler where
  last_schedule : Option Schedule
  decision_log : List String
  warnings : List String
deriving DecidableEq, Repr

/-- `Scheduler.__init__`. -/
def Scheduler.init : Scheduler :=
  ⟨none, [], []⟩

/-- The `priority_scores` dict.  The `.get(..., 2.0)` fallback of the source
is unreachable here because `Priority` is a closed enum, exactly as the spec
notes. -/
def priorityScore : Priority → ℚ
  | Priority.critical => 4
  | Priority.high => 3
  | Priority.medium => 2
  | Priority.low => 1

def priorityLabel : Priority → String
  | Priority.low => "low"
  | Priority.medium => "medium"
  | Priority.high => "high"
  | Priority.critical => "critical"

/-- `Scheduler.score_task`, accumulating into `score` exactly as the source
does.  The `if t.is_overdue() and t.last_done: ... elif t.is_overdue():`
chain is rendered as an outer overdue test with an inner match on
`last_done`.  `(datetime.now() - t.last_done).days` floors the elapsed
minutes by 1440 (the branch only runs when the elapsed time is positive). -/
def Scheduler.score_task (now : Int) (t : Task) : ℚ :=
  let score : ℚ := 0
  let score := score + priorityScore t.priority
  let score := if t.required then score + 2 else score
  let score :=
    if t.is_overdue now then
      match t.last_done with
      | some ld =>
        let days_overdue : Int := Int.fdiv (now - ld) 1440
        score + min ((days_overdue : ℚ) * (1 / 2)) 3
      | none => score + 1
    else score
  let score :=
    match t.last_done with
    | some ld =>
      let hours_since : ℚ := ((now - ld : Int) : ℚ) / 60
      if hours_since < 6 then score - 1
      else if hours_since < 12 then score - (1 / 2)
      else score
    | none => score
  let score :=
    let fitting := t.preferred_windows.filter
      (fun w => decide (w.duration_minutes ≥ t.duration_minutes))
    match fitting.map (fun w => w.duration_minutes) with
    | [] => score
    | d :: ds =>
      let min_window_size := ds.foldl min d
      score + ((t.duration_minutes : ℚ) / (min_window_size : ℚ)) * (1 / 2)
  score

/-- The reason string attached to a placement (priority label, plus the
required / overdue markers). -/
def mkReason (now : Int) (task : Task) : String :=
  "Priority: " ++ priorityLabel task.priority
    ++ (if task.required then ", Required" else "")
    ++ (if task.is_overdue now then ", Overdue" else "")

/-- A conflict warning naming both tasks (strftime time formatting of the
source message elided). -/
def conflictMessage (task : Task) (existing : ScheduledTask) : String :=
  "CONFLICT: " ++ task.title ++ " overlaps with " ++ existing.task.title

/-- `Scheduler._schedule_in_window`: reject when the window cannot fit the
task or the concrete end would exceed the window end; otherwise build the
`ScheduledTask` and try `add_scheduled_task`, recording one warning (and a
log line) per overlapping existing entry when the insertion is refused.
Returns (success, schedule, decision_log, warnings). -/
def Scheduler.schedule_in_window (now dateMid : Int) (task : Task) (window : TimeWindow)
    (sch : Schedule) (log warn : List String) :
    Bool × Schedule × List String × List String :=
  if window.fits_task task.duration_minutes then
    let start_dt := dateMid + window.start
    let end_dt := start_dt + task.duration_minutes
    let window_end := dateMid + window.end_
    if end_dt > window_end then (false, sch, log, warn)
    else
      let st : ScheduledTask := ⟨task, start_dt, end_dt, mkReason now task⟩
      let res := sch.add_scheduled_task st
      if res.1 then (true, res.2, log, warn)
      else
        let msgs := (sch.scheduled_tasks.filter (fun e => st.overlaps_with e)).map
          (fun e => conflictMessage task e)
        (false, res.2, log ++ msgs.map (fun m => "  -> " ++ m), warn ++ msgs)
  else (false, sch, log, warn)

/-- The `for window in ...:` placement loops of `_try_schedule_task`. -/
def tryWindows (now dateMid : Int) (task : Task) :
    List TimeWindow → Schedule → List String → List String →
    Bool × Schedule × List String × List String
  | [], sch, log, warn => (false, sch, log, warn)
  | w :: ws, sch, log, warn =>
    let res := Scheduler.schedule_in_window now dateMid task w sch log warn
    if res.1 then res
    else tryWindows now dateMid task ws res.2.1 res.2.2.1 res.2.2.2

/-- `Scheduler._try_schedule_task`: dependency gate first (skip, with a log
line, on the first dependency id not yet placed), then the task's preferred
windows in order, then the current free-window pool in order. -/
def Scheduler.try_schedule_task (now dateMid : Int) (task : Task) (sch : Schedule)
    (dynamic_windows : List TimeWindow) (log warn : List String) :
    Bool × Schedule × List String × List String :=
  match task.dependencies.find?
      (fun dep => !(sch.scheduled_tasks.any (fun st => st.task.id == dep))) with
  | some dep =>
    (false, sch,
      log ++ ["  -> Skipping " ++ task.title ++ ": dependency " ++ dep ++ " not scheduled yet"],
      warn)
  | none =>
    let res := tryWindows now dateMid task task.preferred_windows sch log warn
    if res.1 then res
    else tryWindows now dateMid task dynamic_windows res.2.1 res.2.2.1 res.2.2.2

/-- The in-place surgery of `_update_windows_after_scheduling` on the pool:
at the first window containing `ts` (the placement's start time-of-day),
pop it and insert the guarded before/after fragments at its position; the
`try/except ValueError` around each construction is the `mkTimeWindow`
match (the guards make the error branch unreachable). -/
def fragmentWindows (ts te : Int) : List TimeWindow → List TimeWindow
  | [] => []
  | w :: ws =>
    if w.contains ts then
      (if decide (ts > w.start) then
        match mkTimeWindow w.start ts with
        | Except.ok bw => [bw]
        | Except.error _ => []
      else [])
      ++ (if decide (te < w.end_) then
        match mkTimeWindow te w.end_ with
        | Except.ok aw => [aw]
        | Except.error _ => []
      else [])
      ++ ws
    else w :: fragmentWindows ts te ws

/-- `Scheduler._update_windows_after_scheduling`: look at the LAST entry of
the (sorted, just-extended) `scheduled_tasks`; if its task id is not the one
just placed, bail out (the source's safety check); otherwise fragment the
pool at its start/end times-of-day (`.time()` is subtraction of the day's
midnight here). -/
def Scheduler.update_windows_after_scheduling (task : Task)
    (available_windows : List TimeWindow) (sch : Schedule) (dateMid : Int) :
    List TimeWindow :=
  match sch.scheduled_tasks.getLast? with
  | none => available_windows
  | some scheduled_task =>
    if scheduled_task.task.id == task.id then
      fragmentWindows (scheduled_task.start_time - dateMid)
        (scheduled_task.end_time - dateMid) available_windows
    else available_windows

/-- The main `for score, task in scored_tasks:` loop of `generate_schedule`:
state is (schedule, dynamic window pool, decision log, warnings). -/
def scheduleLoop (now dateMid : Int) :
    List (ℚ × Task) → Schedule → List TimeWindow → List String → List String →
    Schedule × List TimeWindow × List String × List String
  | [], sch, dw, log, warn => (sch, dw, log, warn)
  | (_score, task) :: rest, sch, dw, log, warn =>
    let res := Scheduler.try_schedule_task now dateMid task sch dw log warn
    if res.1 then
      let log2 := res.2.2.1 ++ ["[SCHEDULED] " ++ task.title]
      let dw2 := Scheduler.update_windows_after_scheduling task dw res.2.1 dateMid
      scheduleLoop now dateMid rest res.2.1 dw2 log2 res.2.2.2
    else
      scheduleLoop now dateMid rest
        { res.2.1 with unscheduled_tasks := res.2.1.unscheduled_tasks ++ [task] }
        dw (res.2.2.1 ++ ["[SKIPPED] " ++ task.title]) res.2.2.2

/-- Scoring and stable descending sort of one task group. -/
def scoredSorted (now : Int) (ts : List Task) : List (ℚ × Task) :=
  stableSort (fun y x => decide (x.1 < y.1)) (ts.map (fun t => (Scheduler.score_task now t, t)))

/-- The combined attempt order: the required group (scored, stable-sorted
descending) followed by the optional group. -/
def Scheduler.ordered_scored_tasks (now : Int) (pet : Pet) : List (ℚ × Task) :=
  scoredSorted now (pet.tasks.filter (fun t => t.required))
    ++ scoredSorted now (pet.tasks.filter (fun t => !t.required))

/-- `Scheduler.generate_schedule`.  The instance state `s` is reset at call
start (log and warnings cleared, `last_schedule` overwritten), exactly as in
the source; the produced schedule therefore never reads `s`. -/
def Scheduler.generate_schedule (s : Scheduler) (owner : Owner) (pet : Pet)
    (dateMid : Int) (available_windows : Option (List TimeWindow)) (now : Int) :
    Schedule × Scheduler :=
  let _ := s
  let aw := match available_windows with
    | some ws => ws
    | none => owner.get_availability
  let aw := stableSort (fun y x => decide (y.start < x.start)) aw
  let total_available := (aw.map (fun w => w.duration_minutes)).sum
  let schedule : Schedule :=
    { scheduled_tasks := []
      unscheduled_tasks := []
      total_minutes_scheduled := 0
      total_minutes_available := total_available
      explanation := ""
      date := some dateMid }
  let scored_tasks := Scheduler.ordered_scored_tasks now pet
  let log : List String :=
    ["Scheduling " ++ natRepr pet.tasks.length ++ " tasks for " ++ pet.name,
     "  Required: " ++ natRepr (pet.tasks.filter (fun t => t.required)).length
       ++ ", Optional: " ++ natRepr (pet.tasks.filter (fun t => !t.required)).length,
     "Available windows: " ++ natRepr aw.length]
  let res := scheduleLoop now dateMid scored_tasks schedule aw log []
  let schedule := res.1.sort_by_time
  let schedule := { schedule with explanation := String.intercalate "\n" res.2.2.1 }
  (schedule, { last_schedule := some schedule, decision_log := res.2.2.1, warnings := res.2.2.2 })

/-! ### Specification-side definitions

These restate parts of the spec in the spec's own vocabulary; the theorems
below compare them with the definitions translated from the source. -/

/-- Spec wording of the score: `+2.0 if required`. -/
def required_bonus (t : Task) : ℚ :=
  if t.required then 2 else 0

/-- Spec wording: overdue with history gives `min(days_overdue * 0.5, 3.0)`,
overdue with no history gives a flat `1.0`, not overdue gives nothing. -/
def overdue_bonus (now : Int) (t : Task) : ℚ :=
  if t.is_overdue now then
    match t.last_done with
    | some ld => min (((Int.fdiv (now - ld) 1440 : Int) : ℚ) * (1 / 2)) 3
    | none => 1
  else 0

/-- Spec wording: `-1.0` if completed within 6 hours, `-0.5` if within 12
(but at least 6), else nothing; this is the magnitude to be subtracted. -/
def recency_penalty (now : Int) (t : Task) : ℚ :=
  match t.last_done with
  | some ld =>
    let hours_since : ℚ := ((now - ld : Int) : ℚ) / 60
    if hours_since < 6 then 1
    else if hours_since < 12 then 1 / 2
    else 0
  | none => 0

/-- Spec wording: `(task_duration / d) * 0.5` where `d` is the duration of
the smallest preferred window that fits the task, `0` when no preferred
window fits (in particular when there are none). -/
def window_fit_bonus (t : Task) : ℚ :=
  match (t.preferred_windows.filter
      (fun w => decide (w.duration_minutes ≥ t.duration_minutes))).map
      (fun w => w.duration_minutes) with
  | [] => 0
  | d :: ds => ((t.duration_minutes : ℚ) / ((ds.foldl min d : Int) : ℚ)) * (1 / 2)

/-- The fragmentation step in the spec's wording: locate the entry of the
pool that contains the placement's start time, remove it, and reinsert—
preserving relative order—the leftover before the task (present iff the
start is strictly inside) and the leftover after (present iff the end is
strictly inside). -/
def fragment_spec (ts te : Int) (pool : List TimeWindow) : List TimeWindow :=
  match pool.dropWhile (fun w => !(w.contains ts)) with
  | [] => pool
  | w :: rest =>
    pool.takeWhile (fun w => !(w.contains ts))
      ++ (if ts > w.start then [⟨w.start, ts⟩] else [])
      ++ (if te < w.end_ then [⟨te, w.end_⟩] else [])
      ++ rest

/-! ### Concrete sample data used by witnesses and counterexamples -/

/-- C10 scenario: one 30-minute availability window 9:00–9:30 and a task
whose only preferred window 10:00–11:00 is disjoint from it. -/
def w10 : TimeWindow := ⟨540, 570⟩

def pw10 : TimeWindow := ⟨600, 660⟩

def t10 : Task :=
  ⟨"t10", "walk", 60, Priority.medium, [pw10], false, none,
    RecurrencePattern.as_needed, none, []⟩

def pet10 : Pet := ⟨"p1", "Rex", none, none, [t10]⟩

def owner10 : Owner := ⟨"o1", "Ann", none, [w10], [pet10]⟩

/-- C2 scenario: windows 9:00–9:40 and 10:00–11:00; A (score 7) only fits
the second window, B (score 5) then lands earlier in the first, C (score 2)
is blocked.  All scores are integral by construction. -/
def wC1 : TimeWindow := ⟨540, 580⟩

def wC2 : TimeWindow := ⟨600, 660⟩

def taskA : Task :=
  ⟨"A", "A", 60, Priority.critical, [], true, none, RecurrencePattern.as_needed, none, []⟩

def taskB : Task :=
  ⟨"B", "B", 30, Priority.medium, [], true, none, RecurrencePattern.as_needed, none, []⟩

def taskC : Task :=
  ⟨"C", "C", 38, Priority.medium, [], false, none, RecurrencePattern.as_needed, none, []⟩

def petC2 : Pet := ⟨"p2", "Mia", none, none, [taskA, taskB, taskC]⟩

def ownerC2 : Owner := ⟨"o2", "Bob", none, [wC1, wC2], [petC2]⟩

/-- The placement of A produced by the run (9:00 window skipped, A at
10:00–11:00). -/
def stA : ScheduledTask := ⟨taskA, 600, 660, "Priority: critical, Required, Overdue"⟩

/-- The placement of B produced by the run (9:00–9:30, before A). -/
def stB : ScheduledTask := ⟨taskB, 540, 570, "Priority: medium, Required, Overdue"⟩

/-- Schedule state after A's placement. -/
def schA : Schedule := ⟨[stA], [], 60, 100, "", some 0⟩

/-- Schedule state after B's placement (sorted: B before A). -/
def schAB : Schedule := ⟨[stB, stA], [], 90, 100, "", some 0⟩

/-- Window pool after A's placement consumed the 10:00–11:00 window. -/
def poolA : List TimeWindow := [wC1]

/-- A pet with one DAILY task, for the completion-operation witness. -/
def tD : Task :=
  ⟨"t1", "feed", 20, Priority.high, [], true, none, RecurrencePattern.daily, some "pD", []⟩

def tE : Task :=
  ⟨"t2", "play", 15, Priority.low, [], false, none, RecurrencePattern.as_needed, some "pD", []⟩

def petD : Pet := ⟨"pD", "Taro", none, none, [tD, tE]⟩

/-- A DAILY task completed at minute 0, for the overdue witness. -/
def tOv : Task :=
  ⟨"ov", "brush", 10, Priority.medium, [], false, some 0,
    RecurrencePattern.daily, none, []⟩

/-- A placed task 100–120 and an overlapping candidate 110–125, for the
conflict-rejection witnesses. -/
def stX : ScheduledTask := ⟨tD, 100, 120, ""⟩

def stY : ScheduledTask := ⟨tE, 110, 125, ""⟩

/-- A schedule holding `stX` whose minute total matches its contents. -/
def schX : Schedule := ⟨[stX], [], 20, 0, "", none⟩

/-! ## Lemmas about the stable insertion sort -/

theorem insertStable_eq_append {α : Type} (keep : α → α → Bool) (x : α) (l : List α) :
    insertStable keep x l
      = l.takeWhile (fun y => keep y x) ++ x :: l.dropWhile (fun y => keep y x) := by
  induction l with
  | nil => rfl
  | cons y ys ih =>
    by_cases h : keep y x = true
    · simp [insertStable, h, List.takeWhile_cons, List.dropWhile_cons, ih]
    · simp only [Bool.not_eq_true] at h
      simp [insertStable, h, List.takeWhile_cons, List.dropWhile_cons]

theorem insertStable_perm {α : Type} (keep : α → α → Bool) (x : α) (l : List α) :
    (insertStable keep x l).Perm (x :: l) := by
  rw [insertStable_eq_append]
  have h : ((l.takeWhile fun y => keep y x) ++ x :: (l.dropWhile fun y => keep y x)).Perm
      (x :: ((l.takeWhile fun y => keep y x) ++ l.dropWhile fun y => keep y x)) :=
    List.perm_middle
  rwa [List.takeWhile_append_dropWhile] at h

theorem stableSort_perm {α : Type} (keep : α → α → Bool) (l : List α) :
    (stableSort keep l).Perm l := by
  induction l with
  | nil => exact List.Perm.refl _
  | cons x xs ih =>
    exact (insertStable_perm keep x (stableSort keep xs)).trans (List.Perm.cons x ih)

theorem mem_insertStable {α : Type} {keep : α → α → Bool} {x z : α} {l : List α} :
    z ∈ insertStable keep x l ↔ z = x ∨ z ∈ l := by
  rw [(insertStable_perm keep x l).mem_iff, List.mem_cons]

theorem filter_insertStable_pos {α : Type} (keep : α → α → Bool) (p : α → Bool) (x : α)
    (l : List α) (hx : p x = true) (hk : ∀ y, keep y x = true → p y = false) :
    (insertStable keep x l).filter p = x :: l.filter p := by
  have h1 : (l.takeWhile fun y => keep y x).filter p = [] := by
    rw [List.filter_eq_nil_iff]
    intro a ha
    have hka : keep a x = true :=
      List.mem_takeWhile_imp (p := fun y => keep y x) (l := l) ha
    simp [hk a hka]
  rw [insertStable_eq_append, List.filter_append, List.filter_cons, hx, h1]
  conv_rhs =>
    rw [← List.takeWhile_append_dropWhile (p := fun y => keep y x) (l := l),
      List.filter_append, h1]
  simp

theorem filter_insertStable_neg {α : Type} (keep : α → α → Bool) (p : α → Bool) (x : α)
    (l : List α) (hx : p x = false) :
    (insertStable keep x l).filter p = l.filter p := by
  rw [insertStable_eq_append, List.filter_append, List.filter_cons, hx]
  conv_rhs =>
    rw [← List.takeWhile_append_dropWhile (p := fun y => keep y x) (l := l),
      List.filter_append]
  simp

/-- Stability of the descending score sort, as a filter identity: for every
score value, the subsequence of entries carrying that score is untouched by
the sort (ties keep encounter order). -/
theorem stableSort_desc_filter (l : List (ℚ × Task)) (q : ℚ) :
    (stableSort (fun y x => decide (x.1 < y.1)) l).filter (fun a => decide (a.1 = q))
      = l.filter (fun a => decide (a.1 = q)) := by
  induction l with
  | nil => rfl
  | cons x xs ih =>
    show (insertStable _ x (stableSort _ xs)).filter _ = _
    by_cases hx : x.1 = q
    · rw [filter_insertStable_pos _ _ x _ (by simp [hx])
        (fun y hy => by
          have : x.1 < y.1 := of_decide_eq_true hy
          simp only [decide_eq_false_iff_not]
          intro hyq
          exact absurd (hx ▸ this) (by simp [hyq])),
        ih, List.filter_cons]
      simp [hx]
    · rw [filter_insertStable_neg _ _ x _ (by simp [hx]), ih, List.filter_cons]
      simp [hx]

theorem insertStable_pairwise_desc (x : ℚ × Task) (l : List (ℚ × Task))
    (hl : l.Pairwise (fun a b => b.1 ≤ a.1)) :
    (insertStable (fun y x => decide (x.1 < y.1)) x l).Pairwise (fun a b => b.1 ≤ a.1) := by
  induction l with
  | nil => simp [insertStable]
  | cons y ys ih =>
    rcases List.pairwise_cons.mp hl with ⟨hy, hys⟩
    by_cases h : x.1 < y.1
    · have he : insertStable (fun y x => decide (x.1 < y.1)) x (y :: ys)
          = y :: insertStable (fun y x => decide (x.1 < y.1)) x ys := by
        simp [insertStable, h]
      rw [he]
      refine List.pairwise_cons.mpr ⟨?_, ih hys⟩
      intro z hz
      rcases mem_insertStable.mp hz with rfl | hzys
      · exact le_of_lt h
      · exact hy z hzys
    · have he : insertStable (fun y x => decide (x.1 < y.1)) x (y :: ys)
          = x :: y :: ys := by
        simp [insertStable, h]
      rw [he]
      refine List.pairwise_cons.mpr ⟨?_, hl⟩
      intro z hz
      rcases List.mem_cons.mp hz with rfl | hzys
      · exact le_of_not_lt h
      · exact le_trans (hy z hzys) (le_of_not_lt h)

theorem stableSort_pairwise_desc (l : List (ℚ × Task)) :
    (stableSort (fun y x => decide (x.1 < y.1)) l).Pairwise (fun a b => b.1 ≤ a.1) := by
  induction l with
  | nil => simp [stableSort]
  | cons x xs ih => exact insertStable_pairwise_desc x _ ih

/-! ## Claims -/

/-- C9: constructing a TimeWindow with `start >= end` always fails with a
validation error and produces no object; with `start < end` it always
succeeds; hence every constructed TimeWindow satisfies `start < end`. -/
theorem claim_C9 : ∀ s e : Int,
    (s ≥ e → ∃ msg, mkTimeWindow s e = Except.error msg)
    ∧ (s < e → mkTimeWindow s e = Except.ok ⟨s, e⟩)
    ∧ (∀ w, mkTimeWindow s e = Except.ok w → w.start < w.end_) := by
  intro s e
  refine ⟨fun h => ⟨"Start time must be before end time", ?_⟩, fun h => ?_, fun w hw => ?_⟩
  · simp [mkTimeWindow, h]
  · simp [mkTimeWindow, not_le.mpr h]
  · unfold mkTimeWindow at hw
    by_cases h : s ≥ e
    · simp [h] at hw
    · simp only [if_neg h] at hw
      cases hw
      exact lt_of_not_ge h

/-- Witness for C9 at the concrete inputs 540 < 600. -/
theorem claim_C9_witness :
    mkTimeWindow 540 600 = Except.ok ⟨540, 600⟩
      ∧ (⟨540, 600⟩ : TimeWindow).start < (⟨540, 600⟩ : TimeWindow).end_ := by
  have h := claim_C9 540 600
  exact ⟨h.2.1 (by decide), h.2.2 ⟨540, 600⟩ (h.2.1 (by decide))⟩

/-- C5: `is_overdue` returns `required` when never done; when done, it
compares the elapsed minutes strictly against the recurrence threshold
(DAILY 24h = 1440, WEEKLY 7d = 10080, BIWEEKLY 14d = 20160, MONTHLY
30d = 43200), and AS_NEEDED is never overdue once done. -/
theorem claim_C5 : ∀ (t : Task) (now : Int),
    (t.last_done = none → t.is_overdue now = t.required)
    ∧ (∀ ld, t.last_done = some ld →
        ((t.recurrence = RecurrencePattern.daily →
            t.is_overdue now = decide (now - ld > 1440))
         ∧ (t.recurrence = RecurrencePattern.weekly →
            t.is_overdue now = decide (now - ld > 10080))
         ∧ (t.recurrence = RecurrencePattern.biweekly →
            t.is_overdue now = decide (now - ld > 20160))
         ∧ (t.recurrence = RecurrencePattern.monthly →
            t.is_overdue now = decide (now - ld > 43200))
         ∧ (t.recurrence = RecurrencePattern.as_needed →
            t.is_overdue now = false))) := by
  intro t now
  constructor
  · intro h
    simp [Task.is_overdue, h]
  · intro ld h
    refine ⟨?_, ?_, ?_, ?_, ?_⟩ <;> intro hr <;> simp [Task.is_overdue, h, hr]

/-- Witness for C5: the DAILY task completed at minute 0 is overdue at
minute 2000 (elapsed 2000 > 1440). -/
theorem claim_C5_witness :
    tOv.is_overdue 2000 = decide ((2000 : Int) - 0 > 1440) :=
  ((claim_C5 tOv 2000).2 0 rfl).1 rfl

/-- C4: `score_task` is exactly the sum of the priority base, the required
bonus, the overdue bonus, minus the recency penalty, plus the window-fit
bonus (the `.get` default for an unmapped priority is unreachable over the
closed `Priority` enum). -/
theorem claim_C4 : ∀ (now : Int) (t : Task),
    Scheduler.score_task now t
      = priorityScore t.priority + required_bonus t + overdue_bonus now t
        - recency_penalty now t + window_fit_bonus t := by
  intro now t
  unfold Scheduler.score_task required_bonus overdue_bonus recency_penalty window_fit_bonus
  cases hld : t.last_done with
  | none =>
    cases hov : t.is_overdue now <;> cases hreq : t.required <;>
      simp only [hld, hov, hreq, Bool.false_eq_true, if_false, if_true] <;>
      rcases hfit : ((t.preferred_windows.filter
          (fun w => decide (w.duration_minutes ≥ t.duration_minutes))).map
          (fun w => w.duration_minutes)) with _ | ⟨d, ds⟩ <;>
        simp [hfit] <;> ring
  | some ld =>
    cases hov : t.is_overdue now <;> cases hreq : t.required <;>
      simp only [hld, hov, hreq, Bool.false_eq_true, if_false, if_true] <;>
      rcases hfit : ((t.preferred_windows.filter
          (fun w => decide (w.duration_minutes ≥ t.duration_minutes))).map
          (fun w => w.duration_minutes)) with _ | ⟨d, ds⟩ <;>
        simp [hfit] <;> split_ifs <;> ring

/-- C3: the attempt order of `generate_schedule` is the required group
followed by the optional group, each group scored and stable-sorted
descending by score: the sorted groups are permutations of the scored
groups, are sorted descending, preserve the encounter order of score ties
(filter identity), and consist exclusively of required (resp. optional)
tasks—so every required task is attempted before any optional one. -/
theorem claim_C3 : ∀ (now : Int) (pet : Pet),
    Scheduler.ordered_scored_tasks now pet
        = scoredSorted now (pet.tasks.filter (fun t => t.required))
          ++ scoredSorted now (pet.tasks.filter (fun t => !t.required))
    ∧ (scoredSorted now (pet.tasks.filter (fun t => t.required))).Perm
        ((pet.tasks.filter (fun t => t.required)).map
          (fun t => (Scheduler.score_task now t, t)))
    ∧ (scoredSorted now (pet.tasks.filter (fun t => !t.required))).Perm
        ((pet.tasks.filter (fun t => !t.required)).map
          (fun t => (Scheduler.score_task now t, t)))
    ∧ (scoredSorted now (pet.tasks.filter (fun t => t.required))).Pairwise
        (fun a b => b.1 ≤ a.1)
    ∧ (scoredSorted now (pet.tasks.filter (fun t => !t.required))).Pairwise
        (fun a b => b.1 ≤ a.1)
    ∧ (∀ q : ℚ,
        (scoredSorted now (pet.tasks.filter (fun t => t.required))).filter
            (fun a => decide (a.1 = q))
          = ((pet.tasks.filter (fun t => t.required)).map
              (fun t => (Scheduler.score_task now t, t))).filter
              (fun a => decide (a.1 = q)))
    ∧ (∀ q : ℚ,
        (scoredSorted now (pet.tasks.filter (fun t => !t.required))).filter
            (fun a => decide (a.1 = q))
          = ((pet.tasks.filter (fun t => !t.required)).map
              (fun t => (Scheduler.score_task now t, t))).filter
              (fun a => decide (a.1 = q)))
    ∧ (∀ x ∈ scoredSorted now (pet.tasks.filter (fun t => t.required)),
        x.2.required = true)
    ∧ (∀ x ∈ scoredSorted now (pet.tasks.filter (fun t => !t.required)),
        x.2.required = false) := by
  intro now pet
  refine ⟨rfl, stableSort_perm _ _, stableSort_perm _ _,
    stableSort_pairwise_desc _, stableSort_pairwise_desc _,
    fun q => stableSort_desc_filter _ q, fun q => stableSort_desc_filter _ q,
    ?_, ?_⟩
  · intro x hx
    have hx' := (stableSort_perm _ _).mem_iff.mp hx
    rcases List.mem_map.mp hx' with ⟨t, ht, rfl⟩
    exact (List.mem_filter.mp ht).2
  · intro x hx
    have hx' := (stableSort_perm _ _).mem_iff.mp hx
    rcases List.mem_map.mp hx' with ⟨t, ht, rfl⟩
    have := (List.mem_filter.mp ht).2
    simpa using this

/-- Witness for C3: in the concrete one-task pet, the sorted optional group
contains the task and it is indeed optional. -/
theorem claim_C3_witness :
    ((Scheduler.score_task 0 t10, t10) : ℚ × Task).2.required = false := by
  refine (claim_C3 0 pet10).2.2.2.2.2.2.2.2 (Scheduler.score_task 0 t10, t10) ?_
  show _ ∈ scoredSorted 0 (pet10.tasks.filter (fun t => !t.required))
  have h : pet10.tasks.filter (fun t => !t.required) = [t10] := by decide
  rw [scoredSorted, h]
  simp [stableSort, insertStable]

/-! ## Invariant preservation through the scheduling pipeline -/

theorem overlaps_with_comm (a b : ScheduledTask) :
    a.overlaps_with b = b.overlaps_with a := by
  simp [ScheduledTask.overlaps_with, Bool.or_comm]

theorem overlap_false_symm : ∀ {a b : ScheduledTask},
    a.overlaps_with b = false → b.overlaps_with a = false := by
  intro a b hab
  rw [overlaps_with_comm]
  exact hab

theorem add_scheduled_task_of_conflict (sch : Schedule) (st : ScheduledTask)
    (h : sch.scheduled_tasks.any (fun e => st.overlaps_with e) = true) :
    sch.add_scheduled_task st = (false, sch) := by
  simp [Schedule.add_scheduled_task, h]

section InvariantPreservation

variable (inv : Schedule → Prop)

theorem schedule_in_window_inv
    (Hadd : ∀ sch st, inv sch → inv (sch.add_scheduled_task st).2)
    (now dateMid : Int) (task : Task) (w : TimeWindow) (sch : Schedule)
    (log warn : List String) (h : inv sch) :
    inv (Scheduler.schedule_in_window now dateMid task w sch log warn).2.1 := by
  unfold Scheduler.schedule_in_window
  dsimp only
  split
  · split
    · exact h
    · split
      · exact Hadd sch _ h
      · exact Hadd sch _ h
  · exact h

theorem tryWindows_inv
    (Hadd : ∀ sch st, inv sch → inv (sch.add_scheduled_task st).2)
    (now dateMid : Int) (task : Task) :
    ∀ (ws : List TimeWindow) (sch : Schedule) (log warn : List String),
      inv sch → inv (tryWindows now dateMid task ws sch log warn).2.1 := by
  intro ws
  induction ws with
  | nil => intro sch log warn h; exact h
  | cons w ws ih =>
    intro sch log warn h
    have h1 := schedule_in_window_inv inv Hadd now dateMid task w sch log warn h
    unfold tryWindows
    dsimp only
    split
    · exact h1
    · exact ih _ _ _ h1

theorem try_schedule_task_inv
    (Hadd : ∀ sch st, inv sch → inv (sch.add_scheduled_task st).2)
    (now dateMid : Int) (task : Task) (sch : Schedule)
    (dw : List TimeWindow) (log warn : List String) (h : inv sch) :
    inv (Scheduler.try_schedule_task now dateMid task sch dw log warn).2.1 := by
  unfold Scheduler.try_schedule_task
  split
  · exact h
  · dsimp only
    split
    · exact tryWindows_inv inv Hadd now dateMid task _ sch log warn h
    · exact tryWindows_inv inv Hadd now dateMid task dw _ _ _
        (tryWindows_inv inv Hadd now dateMid task _ sch log warn h)

theorem scheduleLoop_inv
    (Hadd : ∀ sch st, inv sch → inv (sch.add_scheduled_task st).2)
    (Hunsch : ∀ sch t, inv sch →
      inv { sch with unscheduled_tasks := sch.unscheduled_tasks ++ [t] })
    (now dateMid : Int) :
    ∀ (tasks : List (ℚ × Task)) (sch : Schedule) (dw : List TimeWindow)
      (log warn : List String),
      inv sch → inv (scheduleLoop now dateMid tasks sch dw log warn).1 := by
  intro tasks
  induction tasks with
  | nil => intro sch dw log warn h; exact h
  | cons p rest ih =>
    obtain ⟨sc, task⟩ := p
    intro sch dw log warn h
    have h1 := try_schedule_task_inv inv Hadd now dateMid task sch dw log warn h
    unfold scheduleLoop
    dsimp only
    split
    · exact ih _ _ _ _ h1
    · exact ih _ _ _ _ (Hunsch _ task h1)

theorem generate_schedule_inv
    (Hadd : ∀ sch st, inv sch → inv (sch.add_scheduled_task st).2)
    (Hunsch : ∀ sch t, inv sch →
      inv { sch with unscheduled_tasks := sch.unscheduled_tasks ++ [t] })
    (Hsort : ∀ sch, inv sch → inv sch.sort_by_time)
    (Hexpl : ∀ sch s, inv sch → inv { sch with explanation := s })
    (Hinit : ∀ (total : Int) (dateMid : Int),
      inv { scheduled_tasks := [], unscheduled_tasks := [],
            total_minutes_scheduled := 0, total_minutes_available := total,
            explanation := "", date := some dateMid }) :
    ∀ (s : Scheduler) (owner : Owner) (pet : Pet) (dateMid : Int)
      (aw : Option (List TimeWindow)) (now : Int),
      inv (Scheduler.generate_schedule s owner pet dateMid aw now).1 := by
  intro s owner pet dateMid aw now
  unfold Scheduler.generate_schedule
  exact Hexpl _ _ (Hsort _
    (scheduleLoop_inv inv Hadd Hunsch now dateMid _ _ _ _ _ (Hinit _ dateMid)))

end InvariantPreservation

theorem add_preserves_no_overlap (sch : Schedule) (st : ScheduledTask)
    (h : sch.scheduled_tasks.Pairwise (fun a b => a.overlaps_with b = false)) :
    (sch.add_scheduled_task st).2.scheduled_tasks.Pairwise
      (fun a b => a.overlaps_with b = false) := by
  by_cases hany : sch.scheduled_tasks.any (fun e => st.overlaps_with e) = true
  · rw [add_scheduled_task_of_conflict sch st hany]
    exact h
  · have hnone : ∀ e ∈ sch.scheduled_tasks, st.overlaps_with e = false := by
      intro e he
      have := List.any_eq_false.mp (Bool.eq_false_iff.mpr hany) e he
      simpa using this
    have hstep : (sch.add_scheduled_task st).2.scheduled_tasks
        = insortByStart st sch.scheduled_tasks := by
      simp [Schedule.add_scheduled_task, hany]
    rw [hstep]
    unfold insortByStart
    exact ((insertStable_perm (fun y x => decide (y.start_time ≤ x.start_time))
        st sch.scheduled_tasks).pairwise_iff overlap_false_symm).mpr
      (List.pairwise_cons.mpr ⟨hnone, h⟩)

/-- C1: schedules produced by `generate_schedule` never contain two
overlapping entries; `add_scheduled_task` refuses (returning the schedule
unchanged) any candidate that overlaps an existing entry; and
`add_scheduled_task` preserves the pairwise-non-overlap invariant. -/
theorem claim_C1 :
    (∀ (s : Scheduler) (owner : Owner) (pet : Pet) (dateMid : Int)
        (aw : Option (List TimeWindow)) (now : Int),
      (Scheduler.generate_schedule s owner pet dateMid aw now).1.scheduled_tasks.Pairwise
        (fun a b => a.overlaps_with b = false))
    ∧ (∀ (sch : Schedule) (st : ScheduledTask),
        (∃ e ∈ sch.scheduled_tasks, st.overlaps_with e = true) →
        sch.add_scheduled_task st = (false, sch))
    ∧ (∀ (sch : Schedule) (st : ScheduledTask),
        sch.scheduled_tasks.Pairwise (fun a b => a.overlaps_with b = false) →
        (sch.add_scheduled_task st).2.scheduled_tasks.Pairwise
          (fun a b => a.overlaps_with b = false)) := by
  refine ⟨?_, ?_, add_preserves_no_overlap⟩
  · intro s owner pet dateMid aw now
    refine generate_schedule_inv
      (fun sch => sch.scheduled_tasks.Pairwise (fun a b => a.overlaps_with b = false))
      add_preserves_no_overlap (by intro sch t h; exact h) ?_ (by intro sch s h; exact h)
      (by intro total dateMid; exact List.Pairwise.nil) s owner pet dateMid aw now
    · intro sch h
      show (sch.sort_by_time).scheduled_tasks.Pairwise (fun a b => a.overlaps_with b = false)
      exact ((stableSort_perm (fun y x => decide (y.start_time < x.start_time))
        sch.scheduled_tasks).pairwise_iff overlap_false_symm).mpr h
  · intro sch st h
    rcases h with ⟨e, he, hov⟩
    exact add_scheduled_task_of_conflict sch st
      (List.any_eq_true.mpr ⟨e, he, hov⟩)

/-- Witness for C1: adding the overlapping candidate `stY` to the schedule
holding `stX` is refused with no mutation. -/
theorem claim_C1_witness : schX.add_scheduled_task stY = (false, schX) := by
  refine claim_C1.2.1 schX stY ⟨stX, ?_, ?_⟩ <;> decide

theorem add_preserves_total (sch : Schedule) (st : ScheduledTask)
    (h : sch.total_minutes_scheduled
      = (sch.scheduled_tasks.map (fun e => e.task.duration_minutes)).sum) :
    (sch.add_scheduled_task st).2.total_minutes_scheduled
      = ((sch.add_scheduled_task st).2.scheduled_tasks.map
          (fun e => e.task.duration_minutes)).sum := by
  by_cases hany : sch.scheduled_tasks.any (fun e => st.overlaps_with e) = true
  · rw [add_scheduled_task_of_conflict sch st hany]
    exact h
  · have hsum : ((insortByStart st sch.scheduled_tasks).map
        (fun e => e.task.duration_minutes)).sum
        = st.task.duration_minutes
          + (sch.scheduled_tasks.map (fun e => e.task.duration_minutes)).sum := by
      unfold insortByStart
      have hp := (insertStable_perm
        (fun y x => decide (y.start_time ≤ x.start_time)) st sch.scheduled_tasks).map
        (fun e => e.task.duration_minutes)
      rw [List.Perm.sum_eq hp]
      simp
    simp only [Schedule.add_scheduled_task, hany, Bool.false_eq_true, if_false]
    show sch.total_minutes_scheduled + st.task.duration_minutes = _
    rw [hsum, h]
    ring

/-- C7: `total_minutes_scheduled` equals the sum of the scheduled tasks'
durations: the equality is preserved by every `add_scheduled_task` call, it
holds after any sequence of such calls starting from a fresh `Schedule()`,
and it holds for every schedule produced by `generate_schedule`. -/
theorem claim_C7 :
    (∀ (sch : Schedule) (st : ScheduledTask),
      sch.total_minutes_scheduled
          = (sch.scheduled_tasks.map (fun e => e.task.duration_minutes)).sum →
      (sch.add_scheduled_task st).2.total_minutes_scheduled
          = ((sch.add_scheduled_task st).2.scheduled_tasks.map
              (fun e => e.task.duration_minutes)).sum)
    ∧ (∀ sts : List ScheduledTask,
        (sts.foldl (fun sch st => (sch.add_scheduled_task st).2)
            Schedule.empty).total_minutes_scheduled
          = ((sts.foldl (fun sch st => (sch.add_scheduled_task st).2)
              Schedule.empty).scheduled_tasks.map
              (fun e => e.task.duration_minutes)).sum)
    ∧ (∀ (s : Scheduler) (owner : Owner) (pet : Pet) (dateMid : Int)
        (aw : Option (List TimeWindow)) (now : Int),
        (Scheduler.generate_schedule s owner pet dateMid aw now).1.total_minutes_scheduled
          = ((Scheduler.generate_schedule s owner pet dateMid aw now).1.scheduled_tasks.map
              (fun e => e.task.duration_minutes)).sum) := by
  refine ⟨add_preserves_total, ?_, ?_⟩
  · have hgen : ∀ (sts : List ScheduledTask) (sch : Schedule),
        sch.total_minutes_scheduled
            = (sch.scheduled_tasks.map (fun e => e.task.duration_minutes)).sum →
        (sts.foldl (fun sch st => (sch.add_scheduled_task st).2) sch).total_minutes_scheduled
            = ((sts.foldl (fun sch st => (sch.add_scheduled_task st).2) sch).scheduled_tasks.map
                (fun e => e.task.duration_minutes)).sum := by
      intro sts
      induction sts with
      | nil => intro sch h; exact h
      | cons st sts ih =>
        intro sch h
        exact ih _ (add_preserves_total sch st h)
    intro sts
    exact hgen sts Schedule.empty rfl
  · intro s owner pet dateMid aw now
    refine generate_schedule_inv
      (fun sch => sch.total_minutes_scheduled
        = (sch.scheduled_tasks.map (fun e => e.task.duration_minutes)).sum)
      add_preserves_total (by intro sch t h; exact h) ?_ (by intro sch s h; exact h)
      (by intro total dateMid; rfl) s owner pet dateMid aw now
    · intro sch h
      have hp := (stableSort_perm
        (fun y x => decide (y.start_time < x.start_time)) sch.scheduled_tasks).map
        (fun e => e.task.duration_minutes)
      show sch.total_minutes_scheduled = _
      rw [h]
      exact (List.Perm.sum_eq hp).symm

/-- Witness for C7: the preservation step applied to the concrete schedule
`schX` (whose total 20 matches its one 20-minute entry) and candidate
`stY`. -/
theorem claim_C7_witness :
    (schX.add_scheduled_task stY).2.total_minutes_scheduled
      = ((schX.add_scheduled_task stY).2.scheduled_tasks.map
          (fun e => e.task.duration_minutes)).sum :=
  claim_C7.1 schX stY (by decide)

/-- C8: `generate_schedule` with identical owner/pet/date/window inputs and
a frozen clock yields identical placement sets—whatever the scheduler
instance state happens to be, and also across two back-to-back calls on the
same instance. -/
theorem claim_C8 : ∀ (s1 s2 : Scheduler) (owner : Owner) (pet : Pet)
    (dateMid : Int) (aw : Option (List TimeWindow)) (now : Int),
    ((Scheduler.generate_schedule s1 owner pet dateMid aw now).1.scheduled_tasks
      = (Scheduler.generate_schedule s2 owner pet dateMid aw now).1.scheduled_tasks)
    ∧ ((Scheduler.generate_schedule s1 owner pet dateMid aw now).1.unscheduled_tasks
      = (Scheduler.generate_schedule s2 owner pet dateMid aw now).1.unscheduled_tasks)
    ∧ ((Scheduler.generate_schedule s1 owner pet dateMid aw now).1.scheduled_tasks
      = (Scheduler.generate_schedule
          (Scheduler.generate_schedule s1 owner pet dateMid aw now).2
          owner pet dateMid aw now).1.scheduled_tasks)
    ∧ ((Scheduler.generate_schedule s1 owner pet dateMid aw now).1.unscheduled_tasks
      = (Scheduler.generate_schedule
          (Scheduler.generate_schedule s1 owner pet dateMid aw now).2
          owner pet dateMid aw now).1.unscheduled_tasks) := by
  intro s1 s2 owner pet dateMid aw now
  exact ⟨rfl, rfl, rfl, rfl⟩

/-! ## Window fragmentation (C2) -/

theorem fragment_spec_cons_not_contains {ts te : Int} {w : TimeWindow}
    {ws : List TimeWindow} (hc : w.contains ts = false) :
    fragment_spec ts te (w :: ws) = w :: fragment_spec ts te ws := by
  unfold fragment_spec
  rw [List.dropWhile_cons, List.takeWhile_cons]
  rcases h : ws.dropWhile (fun w => !(w.contains ts)) with _ | ⟨w2, rest⟩ <;>
    simp [hc, h]

theorem fragment_spec_cons_contains {ts te : Int} {w : TimeWindow}
    {ws : List TimeWindow} (hc : w.contains ts = true) :
    fragment_spec ts te (w :: ws)
      = (if ts > w.start then [⟨w.start, ts⟩] else [])
        ++ (if te < w.end_ then [⟨te, w.end_⟩] else []) ++ ws := by
  unfold fragment_spec
  rw [List.dropWhile_cons]
  simp [hc]

theorem fragmentWindows_eq_spec (ts te : Int) :
    ∀ pool : List TimeWindow, fragmentWindows ts te pool = fragment_spec ts te pool := by
  intro pool
  induction pool with
  | nil => rfl
  | cons w ws ih =>
    by_cases hc : w.contains ts = true
    · rw [fragment_spec_cons_contains hc]
      unfold fragmentWindows
      rw [if_pos hc]
      have hb : (if decide (ts > w.start) = true then
            (match mkTimeWindow w.start ts with
             | Except.ok bw => [bw]
             | Except.error _ => [])
          else ([] : List TimeWindow))
          = (if ts > w.start then [(⟨w.start, ts⟩ : TimeWindow)] else []) := by
        by_cases hgt : ts > w.start
        · have : ¬ w.start ≥ ts := not_le.mpr hgt
          simp [hgt, mkTimeWindow, this]
        · simp [hgt]
      have ha : (if decide (te < w.end_) = true then
            (match mkTimeWindow te w.end_ with
             | Except.ok aw => [aw]
             | Except.error _ => [])
          else ([] : List TimeWindow))
          = (if te < w.end_ then [(⟨te, w.end_⟩ : TimeWindow)] else []) := by
        by_cases hlt : te < w.end_
        · have : ¬ te ≥ w.end_ := not_le.mpr hlt
          simp [hlt, mkTimeWindow, this]
        · simp [hlt]
      rw [hb, ha]
    · have hc' : w.contains ts = false := Bool.eq_false_iff.mpr hc
      rw [fragment_spec_cons_not_contains hc']
      unfold fragmentWindows
      rw [if_neg hc, ih]

/-- C2 amended: after a successful placement the pool is fragmented exactly
as the spec describes it **only when** the just-placed entry is the last of
the (start-time-sorted) scheduled list—the source reads
`scheduled_tasks[-1]`; when the new placement is not the chronologically
last entry (or the schedule is empty) the pool is returned unchanged. -/
theorem claim_C2_amended : ∀ (task : Task) (pool : List TimeWindow)
    (sch : Schedule) (dateMid : Int),
    (sch.scheduled_tasks.getLast? = none →
      Scheduler.update_windows_after_scheduling task pool sch dateMid = pool)
    ∧ (∀ st, sch.scheduled_tasks.getLast? = some st → st.task.id ≠ task.id →
        Scheduler.update_windows_after_scheduling task pool sch dateMid = pool)
    ∧ (∀ st, sch.scheduled_tasks.getLast? = some st → st.task.id = task.id →
        Scheduler.update_windows_after_scheduling task pool sch dateMid
          = fragment_spec (st.start_time - dateMid) (st.end_time - dateMid) pool) := by
  intro task pool sch dateMid
  refine ⟨?_, ?_, ?_⟩
  · intro h
    unfold Scheduler.update_windows_after_scheduling
    rw [h]
  · intro st h hne
    unfold Scheduler.update_windows_after_scheduling
    rw [h]
    have : (st.task.id == task.id) = false := by
      simp [hne]
    simp [this]
  · intro st h hid
    unfold Scheduler.update_windows_after_scheduling
    rw [h]
    have : (st.task.id == task.id) = true := beq_iff_eq.mpr hid
    simp only [this, if_true]
    exact fragmentWindows_eq_spec _ _ pool

/-- Witness for the amended C2 at concrete inputs: with A the last-placed
entry, the pool that held A's start is fragmented per the spec. -/
theorem claim_C2_amended_witness :
    Scheduler.update_windows_after_scheduling taskA [wC1, wC2] schA 0
      = fragment_spec (stA.start_time - 0) (stA.end_time - 0) [wC1, wC2] :=
  (claim_C2_amended taskA [wC1, wC2] schA 0).2.2 stA (by decide) (by decide)

/-! Concrete score values for the C2 scenario (integral by construction, so
the whole concrete run kernel-evaluates). -/

theorem score_taskA : Scheduler.score_task 0 taskA = 7 := by
  norm_num [Scheduler.score_task, taskA, Task.is_overdue, priorityScore]

theorem score_taskB : Scheduler.score_task 0 taskB = 5 := by
  norm_num [Scheduler.score_task, taskB, Task.is_overdue, priorityScore]

theorem score_taskC : Scheduler.score_task 0 taskC = 2 := by
  norm_num [Scheduler.score_task, taskC, Task.is_overdue, priorityScore]

theorem orderedC2 : Scheduler.ordered_scored_tasks 0 petC2
    = [(7, taskA), (5, taskB), (2, taskC)] := by
  unfold Scheduler.ordered_scored_tasks scoredSorted
  have hreq : petC2.tasks.filter (fun t => t.required) = [taskA, taskB] := by decide
  have hopt : petC2.tasks.filter (fun t => !t.required) = [taskC] := by decide
  rw [hreq, hopt]
  simp only [List.map_cons, List.map_nil, score_taskA, score_taskB, score_taskC]
  decide

/-- C2 counterexample, refuting "this fragmentation happens on any
successful placement": in the concrete `generate_schedule` run on `petC2`,
B's placement into the pool `[wC1]` succeeds (B lands 9:00–9:30, before the
already-placed A at 10:00), the pool entry `wC1` contains B's start
time-of-day and the spec-mandated fragmentation of it is `[⟨570, 580⟩]`,
yet `_update_windows_after_scheduling` leaves the pool unchanged because
the last element of the sorted schedule is A, not B; consequently C stays
unscheduled even though 9:30–9:40 is free. -/
theorem claim_C2_counterexample :
    (Scheduler.try_schedule_task 0 0 taskB schA poolA [] []).1 = true
    ∧ (Scheduler.try_schedule_task 0 0 taskB schA poolA [] []).2.1 = schAB
    ∧ schAB.scheduled_tasks.getLast? = some stA
    ∧ stA.task.id ≠ taskB.id
    ∧ Scheduler.update_windows_after_scheduling taskB poolA schAB 0 = poolA
    ∧ wC1.contains (stB.start_time - 0) = true
    ∧ fragment_spec (stB.start_time - 0) (stB.end_time - 0) poolA = [⟨570, 580⟩]
    ∧ poolA ≠ [⟨570, 580⟩]
    ∧ (Scheduler.generate_schedule Scheduler.init ownerC2 petC2 0 none 0).1.scheduled_tasks
        = [stB, stA]
    ∧ (Scheduler.generate_schedule Scheduler.init ownerC2 petC2 0 none 0).1.unscheduled_tasks
        = [taskC] := by
  have hrun : (Scheduler.generate_schedule Scheduler.init ownerC2 petC2 0 none 0).1.scheduled_tasks
        = [stB, stA]
      ∧ (Scheduler.generate_schedule Scheduler.init ownerC2 petC2 0 none 0).1.unscheduled_tasks
        = [taskC] := by
    unfold Scheduler.generate_schedule
    dsimp only
    rw [orderedC2]
    constructor <;> decide
  exact ⟨by decide, by decide, by decide, by decide, by decide, by decide,
    by decide, by decide, hrun.1, hrun.2⟩

/-- C10: on the concrete input whose only availability window (9:00–9:30,
30 minutes) is disjoint from the task's preferred window (10:00–11:00), the
task is nevertheless placed inside the preferred window, and the
utilization rate is 200 > 100. -/
theorem claim_C10 :
    (Scheduler.generate_schedule Scheduler.init owner10 pet10 0 none 0).1.scheduled_tasks
        = [⟨t10, 600, 660, "Priority: medium"⟩]
    ∧ pw10 ∈ t10.preferred_windows
    ∧ (∀ w ∈ owner10.availability, pw10.overlaps w = false)
    ∧ (Scheduler.generate_schedule Scheduler.init owner10 pet10 0 none 0).1.total_minutes_scheduled
        = 60
    ∧ (Scheduler.generate_schedule Scheduler.init owner10 pet10 0 none 0).1.total_minutes_available
        = 30
    ∧ (Scheduler.generate_schedule Scheduler.init owner10 pet10 0 none 0).1.get_utilization_rate
        = 200
    ∧ (100 : ℚ) <
        (Scheduler.generate_schedule Scheduler.init owner10 pet10 0 none 0).1.get_utilization_rate := by
  have h1 : (Scheduler.generate_schedule Scheduler.init owner10 pet10 0 none 0).1.total_minutes_scheduled
      = 60 := by decide
  have h2 : (Scheduler.generate_schedule Scheduler.init owner10 pet10 0 none 0).1.total_minutes_available
      = 30 := by decide
  have hu : (Scheduler.generate_schedule Scheduler.init owner10 pet10 0 none 0).1.get_utilization_rate
      = 200 := by
    unfold Schedule.get_utilization_rate
    rw [h1, h2]
    norm_num
  refine ⟨by decide, by decide, by decide, h1, h2, hu, ?_⟩
  rw [hu]
  norm_num

/-! ## Fresh successor ids (C6) -/

theorem of_digits_natDigitsAux : ∀ (fuel n : Nat), n ≤ fuel →
    of_digits (natDigitsAux fuel n) = n := by
  intro fuel
  induction fuel with
  | zero =>
    intro n hn
    interval_cases n
    rfl
  | succ f ih =>
    intro n hn
    match n with
    | 0 => rfl
    | m + 1 =>
      unfold natDigitsAux of_digits
      have hdiv : (m + 1) / 10 ≤ f := by
        have h1 : (m + 1) / 10 < m + 1 := Nat.div_lt_self (Nat.succ_pos m) (by norm_num)
        omega
      rw [ih _ hdiv]
      omega

theorem natDigitsAux_lt_ten : ∀ (fuel n : Nat), ∀ d ∈ natDigitsAux fuel n, d < 10 := by
  intro fuel
  induction fuel with
  | zero =>
    intro n d hd
    simp [natDigitsAux] at hd
  | succ f ih =>
    intro n d hd
    match n with
    | 0 => simp [natDigitsAux] at hd
    | m + 1 =>
      unfold natDigitsAux at hd
      rcases List.mem_cons.mp hd with rfl | h
      · exact Nat.mod_lt _ (by norm_num)
      · exact ih _ d h

theorem digitChar_inj : ∀ d1 d2 : Nat, d1 < 10 → d2 < 10 →
    digitChar d1 = digitChar d2 → d1 = d2 := by
  intro d1 d2 h1 h2 h
  interval_cases d1 <;> interval_cases d2 <;> revert h <;> decide

theorem map_digitChar_inj : ∀ (l1 l2 : List Nat), (∀ d ∈ l1, d < 10) →
    (∀ d ∈ l2, d < 10) → l1.map digitChar = l2.map digitChar → l1 = l2 := by
  intro l1
  induction l1 with
  | nil =>
    intro l2 _ _ h
    cases l2 with
    | nil => rfl
    | cons e es => simp at h
  | cons d ds ih =>
    intro l2 h1 h2 h
    cases l2 with
    | nil => simp at h
    | cons e es =>
      simp only [List.map_cons, List.cons.injEq] at h
      have hd := digitChar_inj d e (h1 d (by simp)) (h2 e (by simp)) h.1
      rw [hd, ih es (fun x hx => h1 x (List.mem_cons_of_mem _ hx))
        (fun x hx => h2 x (List.mem_cons_of_mem _ hx)) h.2]

theorem natRepr_inj_pos : ∀ m n : Nat, 0 < m → 0 < n →
    natRepr m = natRepr n → m = n := by
  intro m n hm hn h
  unfold natRepr at h
  rw [if_neg (Nat.pos_iff_ne_zero.mp hm), if_neg (Nat.pos_iff_ne_zero.mp hn)] at h
  have hdata : (natDigitsAux m m).reverse.map digitChar
      = (natDigitsAux n n).reverse.map digitChar := congrArg String.data h
  have hrev : (natDigitsAux m m).reverse = (natDigitsAux n n).reverse :=
    map_digitChar_inj _ _
      (fun d hd => natDigitsAux_lt_ten m m d (List.mem_reverse.mp hd))
      (fun d hd => natDigitsAux_lt_ten n n d (List.mem_reverse.mp hd)) hdata
  have hdig : natDigitsAux m m = natDigitsAux n n := by
    have := congrArg List.reverse hrev
    simpa using this
  have h1 := of_digits_natDigitsAux m m (le_refl m)
  have h2 := of_digits_natDigitsAux n n (le_refl n)
  rw [← h1, ← h2, hdig]

theorem mk_next_id_inj (base : String) : ∀ m n : Nat, 0 < m → 0 < n →
    mk_next_id base m = mk_next_id base n → m = n := by
  intro m n hm hn h
  unfold mk_next_id at h
  have hd := congrArg String.data h
  rw [String.data_append, String.data_append, String.data_append,
    String.data_append] at hd
  have hrepr : (natRepr m).data = (natRepr n).data := List.append_cancel_left hd
  exact natRepr_inj_pos m n hm hn (String.ext hrepr)

/-- Pigeonhole: among the counters `1 .. |ids|+1` some candidate id is
absent from `ids`. -/
theorem fresh_id_exists (ids : List String) (base : String) :
    ∃ k : Nat, 1 ≤ k ∧ k < 1 + (ids.length + 1) ∧ ¬ mk_next_id base k ∈ ids := by
  by_contra hcon
  push_neg at hcon
  have himg : (Finset.Icc 1 (ids.length + 1)).image (fun k => mk_next_id base k)
      ⊆ ids.toFinset := by
    intro s hs
    rcases Finset.mem_image.mp hs with ⟨k, hk, rfl⟩
    rcases Finset.mem_Icc.mp hk with ⟨hk1, hk2⟩
    exact List.mem_toFinset.mpr (hcon k hk1 (by omega))
  have hcard : ((Finset.Icc 1 (ids.length + 1)).image
      (fun k => mk_next_id base k)).card = ids.length + 1 := by
    rw [Finset.card_image_of_injOn, Nat.card_Icc]
    · omega
    · intro a ha b hb hab
      have ha1 := (Finset.mem_Icc.mp (Finset.mem_coe.mp ha)).1
      have hb1 := (Finset.mem_Icc.mp (Finset.mem_coe.mp hb)).1
      exact mk_next_id_inj base a b (by omega) (by omega) hab
  have hle := Finset.card_le_card himg
  have hlen := List.toFinset_card_le ids
  omega

theorem freshCounter_fresh (ids : List String) (base : String) :
    ∀ (fuel c : Nat),
      (∃ k, c ≤ k ∧ k < c + fuel ∧ ¬ mk_next_id base k ∈ ids) →
      ¬ mk_next_id base (freshCounter ids base fuel c) ∈ ids := by
  intro fuel
  induction fuel with
  | zero =>
    intro c h
    rcases h with ⟨k, hk1, hk2, _⟩
    omega
  | succ f ih =>
    intro c h
    rcases h with ⟨k, hk1, hk2, hk3⟩
    unfold freshCounter
    by_cases hc : ids.contains (mk_next_id base c) = true
    · rw [if_pos hc]
      apply ih (c + 1)
      have hkc : k ≠ c := by
        intro hkc
        exact hk3 (hkc ▸ List.elem_iff.mp hc)
      exact ⟨k, by omega, by omega, hk3⟩
    · rw [if_neg hc]
      intro hmem
      exact hc (List.elem_iff.mpr hmem)

theorem freshCounter_ge (ids : List String) (base : String) :
    ∀ (fuel c : Nat), c ≤ freshCounter ids base fuel c := by
  intro fuel
  induction fuel with
  | zero => intro c; exact le_refl c
  | succ f ih =>
    intro c
    unfold freshCounter
    by_cases hc : ids.contains (mk_next_id base c) = true
    · rw [if_pos hc]
      exact le_trans (Nat.le_succ c) (ih (c + 1))
    · rw [if_neg hc]

theorem setFirstLastDone_length (now : Int) (task_id : String) :
    ∀ l : List Task, (setFirstLastDone now task_id l).length = l.length := by
  intro l
  induction l with
  | nil => rfl
  | cons t ts ih =>
    unfold setFirstLastDone
    by_cases ht : (t.id == task_id) = true
    · rw [if_pos ht]
      simp
    · rw [if_neg ht]
      simp [ih]

theorem setFirstLastDone_split (now : Int) (task_id : String) :
    ∀ (l : List Task) (task : Task), l.find? (fun t => t.id == task_id) = some task →
      ∃ pre post, l = pre ++ task :: post
        ∧ (∀ t ∈ pre, t.id ≠ task_id)
        ∧ setFirstLastDone now task_id l
            = pre ++ { task with last_done := some now } :: post := by
  intro l
  induction l with
  | nil =>
    intro task h
    simp [List.find?] at h
  | cons t ts ih =>
    intro task h
    rw [List.find?_cons] at h
    by_cases ht : (t.id == task_id) = true
    · rw [ht] at h
      cases h
      refine ⟨[], ts, by simp, by simp, ?_⟩
      unfold setFirstLastDone
      rw [if_pos ht]
      simp
    · rw [Bool.eq_false_iff.mpr ht] at h
      rcases ih task h with ⟨pre, post, hsplit, hpre, hset⟩
      refine ⟨t :: pre, post, by simp [hsplit], ?_, ?_⟩
      · intro x hx
        rcases List.mem_cons.mp hx with rfl | hx2
        · simpa using ht
        · exact hpre x hx2
      · unfold setFirstLastDone
        rw [if_neg ht, hset]
        simp

theorem recurring_contains : ∀ r : RecurrencePattern,
    ([RecurrencePattern.daily, RecurrencePattern.weekly,
      RecurrencePattern.biweekly, RecurrencePattern.monthly].contains r = true)
      ↔ r ≠ RecurrencePattern.as_needed := by
  intro r
  cases r <;> decide

/-- C6: `mark_task_complete` raises a not-found error iff no task with the
id is on the pet; on a found task it stamps `last_done = now` on the first
match (everything else untouched), and—iff the recurrence is one of DAILY,
WEEKLY, BIWEEKLY, MONTHLY—appends exactly one successor task (title,
duration, priority, preferred windows, required flag, recurrence and
dependencies copied; `last_done = None`; id of the form
`base_next_counter` and never a duplicate of any id on the pet) and returns
it, while AS_NEEDED appends nothing, keeps the task count, and returns
nothing.  (In this functional embedding the error branch returns no pet at
all, i.e. the pet is unchanged.) -/
theorem claim_C6 : ∀ (pet : Pet) (task_id : String) (now : Int),
    ((∃ msg, pet.mark_task_complete task_id now = Except.error msg)
      ↔ ¬ ∃ t ∈ pet.tasks, t.id = task_id)
    ∧ (∀ task, pet.find_task task_id = some task →
        (∃ pre post, pet.tasks = pre ++ task :: post
          ∧ (∀ t ∈ pre, t.id ≠ task_id)
          ∧ setFirstLastDone now task_id pet.tasks
              = pre ++ { task with last_done := some now } :: post)
        ∧ (task.recurrence ≠ RecurrencePattern.as_needed →
            ∃ new_task,
              pet.mark_task_complete task_id now
                  = Except.ok ({ pet with
                      tasks := setFirstLastDone now task_id pet.tasks ++ [new_task] },
                    some new_task)
                ∧ new_task.last_done = none
                ∧ new_task.title = task.title
                ∧ new_task.duration_minutes = task.duration_minutes
                ∧ new_task.priority = task.priority
                ∧ new_task.preferred_windows = task.preferred_windows
                ∧ new_task.required = task.required
                ∧ new_task.recurrence = task.recurrence
                ∧ new_task.dependencies = task.dependencies
                ∧ (∀ t ∈ setFirstLastDone now task_id pet.tasks, t.id ≠ new_task.id)
                ∧ (∃ c : Nat, 1 ≤ c ∧ new_task.id = mk_next_id (base_id task_id) c)
                ∧ (setFirstLastDone now task_id pet.tasks ++ [new_task]).length
                    = pet.tasks.length + 1)
        ∧ (task.recurrence = RecurrencePattern.as_needed →
            pet.mark_task_complete task_id now
                = Except.ok ({ pet with tasks := setFirstLastDone now task_id pet.tasks },
                  none)
              ∧ (setFirstLastDone now task_id pet.tasks).length = pet.tasks.length)) := by
  intro pet task_id now
  constructor
  · constructor
    · rintro ⟨msg, hmsg⟩ ⟨t, ht, hid⟩
      unfold Pet.mark_task_complete at hmsg
      rcases hf : pet.find_task task_id with _ | task
      · unfold Pet.find_task at hf
        have := List.find?_eq_none.mp hf t ht
        simp [hid] at this
      · rw [hf] at hmsg
        dsimp only at hmsg
        by_cases hrec : ([RecurrencePattern.daily, RecurrencePattern.weekly,
            RecurrencePattern.biweekly, RecurrencePattern.monthly].contains
              task.recurrence) = true
        · rw [if_pos hrec] at hmsg
          exact Except.noConfusion hmsg
        · rw [if_neg hrec] at hmsg
          exact Except.noConfusion hmsg
    · intro hno
      refine ⟨"Task with id " ++ task_id ++ " not found", ?_⟩
      unfold Pet.mark_task_complete
      have hf : pet.find_task task_id = none := by
        unfold Pet.find_task
        rw [List.find?_eq_none]
        intro t ht
        simp only [beq_iff_eq]
        intro hid
        exact hno ⟨t, ht, hid⟩
      rw [hf]
  · intro task hfind
    have hsplit := setFirstLastDone_split now task_id pet.tasks task hfind
    refine ⟨hsplit, ?_, ?_⟩
    · intro hrec
      have hcon : ([RecurrencePattern.daily, RecurrencePattern.weekly,
          RecurrencePattern.biweekly, RecurrencePattern.monthly].contains
            task.recurrence) = true := (recurring_contains task.recurrence).mpr hrec
      have hfresh : ¬ mk_next_id (base_id task_id)
          (freshCounter ((setFirstLastDone now task_id pet.tasks).map (fun t => t.id))
            (base_id task_id)
            (((setFirstLastDone now task_id pet.tasks).map (fun t => t.id)).length + 1) 1)
          ∈ (setFirstLastDone now task_id pet.tasks).map (fun t => t.id) :=
        freshCounter_fresh _ _ _ 1
          (fresh_id_exists ((setFirstLastDone now task_id pet.tasks).map (fun t => t.id))
            (base_id task_id))
      refine ⟨⟨mk_next_id (base_id task_id)
            (freshCounter ((setFirstLastDone now task_id pet.tasks).map (fun t => t.id))
              (base_id task_id)
              (((setFirstLastDone now task_id pet.tasks).map (fun t => t.id)).length + 1) 1),
          task.title, task.duration_minutes, task.priority, task.preferred_windows,
          task.required, none, task.recurrence, some pet.id, task.dependencies⟩,
        ?_, rfl, rfl, rfl, rfl, rfl, rfl, rfl, rfl, ?_, ?_, ?_⟩
      · unfold Pet.mark_task_complete
        rw [hfind]
        dsimp only
        rw [if_pos hcon]
      · intro t ht heq
        exact hfresh (List.mem_map.mpr ⟨t, ht, heq⟩)
      · exact ⟨_, freshCounter_ge _ _ _ 1, rfl⟩
      · simp [setFirstLastDone_length]
    · intro hrec
      have hcon : ([RecurrencePattern.daily, RecurrencePattern.weekly,
          RecurrencePattern.biweekly, RecurrencePattern.monthly].contains
            task.recurrence) = false := by
        rw [Bool.eq_false_iff]
        intro hx
        exact absurd hrec ((recurring_contains task.recurrence).mp hx)
      constructor
      · unfold Pet.mark_task_complete
        rw [hfind]
        dsimp only
        rw [if_neg (by simp [hcon])]
      · exact setFirstLastDone_length now task_id pet.tasks

/-- Witness for C6 at the concrete pet with the DAILY task "t1": the
completion returns a successor with `last_done = None` and a fresh id. -/
theorem claim_C6_witness :
    ∃ new_task,
      petD.mark_task_complete "t1" 100
          = Except.ok ({ petD with
              tasks := setFirstLastDone 100 "t1" petD.tasks ++ [new_task] },
            some new_task)
        ∧ new_task.last_done = none
        ∧ (∀ t ∈ setFirstLastDone 100 "t1" petD.tasks, t.id ≠ new_task.id) := by
  have h := ((claim_C6 petD "t1" 100).2 tD (by decide)).2.1 (by decide)
  rcases h with ⟨nt, h1, h2, _, _, _, _, _, _, _, h10, _, _⟩
  exact ⟨nt, h1, h2, h10⟩

end PawPal
